import Mathlib

/-!
Shallow embedding of the VHDL output-side IR of the code generator
(header: src/tgt-vhdl/vhdl_element.hh).  The header declares the node
classes, their fields, the inline constructors and accessors, and the
signatures of the operations; the out-of-line method bodies are not part
of the sources available here, so those bodies are modelled from the
specification (each such definition carries a doc comment saying so).

Renderings are modelled as lists of characters; the emission sink of the
original code is an output stream, modelled where needed as an
accumulating character list.
-/

namespace VhdlElement

/-- A VHDL type.  The header has one concrete case, vhdl_scalar_type,
holding just a name. -/
inductive vhdl_type where
| scalar_type (name : String)
deriving DecidableEq

/-- Modelled from the spec: the body of vhdl_scalar_type::emit is not in
the sources; the spec says a type is just a name, rendered as such. -/
def vhdl_type.emit : vhdl_type → List Char
| .scalar_type n => n.data

/-- VHDL expressions: a scalar variable reference (vhdl_var_ref) or a
string literal (vhdl_const_string). -/
inductive vhdl_expr where
| var_ref (name : String)
| const_string (value : String)
deriving DecidableEq

/-- Modelled from the spec: the bodies of vhdl_var_ref::emit and
vhdl_const_string::emit are not in the sources; the spec says a variable
reference renders its identifier verbatim and a string constant renders
its value as a quoted literal. -/
def vhdl_expr.emit : vhdl_expr → List Char
| .var_ref n => n.data
| .const_string v => '"' :: (v.data ++ ['"'])

/-- Modelled from the spec: the body of vhdl_expr_list::emit is not in
the sources; the spec says the members render inline, comma separated,
in append order, and zero members render as an empty string. -/
def emit_exprs : List vhdl_expr → List Char
| [] => []
| [e] => e.emit
| e :: e2 :: es => e.emit ++ (", ").data ++ emit_exprs (e2 :: es)

/-- vhdl_expr_list: an ordered list of owned expressions. -/
structure vhdl_expr_list where
  exprs_ : List vhdl_expr
deriving DecidableEq

/-- Modelled from the spec: the body of vhdl_expr_list::add_expr is not
in the sources; it appends the expression to the member list. -/
def vhdl_expr_list.add_expr (l : vhdl_expr_list) (e : vhdl_expr) : vhdl_expr_list :=
  ⟨l.exprs_ ++ [e]⟩

def vhdl_expr_list.emit (l : vhdl_expr_list) : List Char :=
  emit_exprs l.exprs_

/-- Indentation: each structural level indents one step deeper. -/
def indent (level : Nat) : List Char :=
  List.replicate (2 * level) ' '

/-- Sequential statements: an indefinite wait (vhdl_wait_stmt) or a
procedure call (vhdl_pcall_stmt) owning an expression list. -/
inductive vhdl_seq_stmt where
| wait_stmt
| pcall_stmt (name : String) (exprs : vhdl_expr_list)
deriving DecidableEq

/-- Modelled from the spec: the emit bodies for sequential statements
are not in the sources; wait renders an unconditional suspend statement
and a procedure call renders name(args); with its owned list. -/
def vhdl_seq_stmt.emit : vhdl_seq_stmt → Nat → List Char
| .wait_stmt, l => indent l ++ ("wait;\n").data
| .pcall_stmt n es, l => indent l ++ n.data ++ ['('] ++ es.emit ++ (");\n").data

/-- Declarations: a variable declaration owning a type, or a component
declaration (privileged construction, see component_decl_for). -/
inductive vhdl_decl where
| var_decl (name : String) (type : vhdl_type)
| component_decl (name : String)
deriving DecidableEq

/-- get_name, inline in the header: the declared identifier. -/
def vhdl_decl.get_name : vhdl_decl → String
| .var_decl n _ => n
| .component_decl n => n

/-- Modelled from the spec: the emit bodies for declarations are not in
the sources; a variable declaration renders variable name : type; and a
component declaration renders a minimal forward-declaration stub. -/
def vhdl_decl.emit : vhdl_decl → Nat → List Char
| .var_decl n t, l =>
    indent l ++ ("variable ").data ++ n.data ++ (" : ").data ++ t.emit ++ (";\n").data
| .component_decl n, l =>
    indent l ++ ("component ").data ++ n.data ++ (";\n").data

/-- vhdl_process: a container of sequential statements with owned
declarations and a name. -/
structure vhdl_process where
  stmts_ : List vhdl_seq_stmt
  decls_ : List vhdl_decl
  name_ : String
deriving DecidableEq

/-- Modelled from the spec: the vhdl_process constructor body is not in
the sources; it stores the name and starts with empty statement and
declaration lists. -/
def vhdl_process.mk_new (name : String) : vhdl_process :=
  ⟨[], [], name⟩

/-- The header declares vhdl_process(const char *name = ""): omitting
the name argument uses the empty string. -/
def vhdl_process.mk_default : vhdl_process :=
  vhdl_process.mk_new ""

/-- Modelled from the spec: the body of vhdl_process::add_stmt is not in
the sources; it appends the sequential statement. -/
def vhdl_process.add_stmt (p : vhdl_process) (s : vhdl_seq_stmt) : vhdl_process :=
  ⟨p.stmts_ ++ [s], p.decls_, p.name_⟩

/-- Modelled from the spec: the body of vhdl_process::add_decl is not in
the sources; it appends the declaration, with no duplicate check. -/
def vhdl_process.add_decl (p : vhdl_process) (d : vhdl_decl) : vhdl_process :=
  ⟨p.stmts_, p.decls_ ++ [d], p.name_⟩

/-- Modelled from the spec: the body of vhdl_process::have_declared_var
is not in the sources; the spec says it is true iff a variable
declaration with exactly that name was previously appended. -/
def vhdl_process.have_declared_var (p : vhdl_process) (name : String) : Bool :=
  p.decls_.any fun d =>
    match d with
    | .var_decl n _ => n = name
    | .component_decl _ => false

/-- Concurrent statements: a component instantiation or a process.  The
parent back-reference lives in the identity-level model below. -/
inductive vhdl_conc_stmt where
| comp_inst (inst_name comp_name : String)
| process (p : vhdl_process)
deriving DecidableEq

/-- vhdl_arch: an architecture implementing an entity, with owned
declarations and concurrent statements.  The parent back-reference lives
in the identity-level model below. -/
structure vhdl_arch where
  name_ : String
  entity_ : String
  decls_ : List vhdl_decl
  stmts_ : List vhdl_conc_stmt
deriving DecidableEq

/-- Modelled from the spec: the vhdl_arch constructor body is not in the
sources; it stores the entity name and the architecture name and starts
with empty lists. -/
def vhdl_arch.mk_named (entity name : String) : vhdl_arch :=
  ⟨name, entity, [], []⟩

/-- The header declares vhdl_arch(const char *entity, const char
*name="Behavioural"): omitting the name argument uses "Behavioural". -/
def vhdl_arch.mk_default (entity : String) : vhdl_arch :=
  vhdl_arch.mk_named entity "Behavioural"

/-- Modelled from the spec: the body of vhdl_arch::add_decl is not in
the sources; it appends the declaration, with no duplicate check. -/
def vhdl_arch.add_decl (a : vhdl_arch) (d : vhdl_decl) : vhdl_arch :=
  ⟨a.name_, a.entity_, a.decls_ ++ [d], a.stmts_⟩

/-- Modelled from the spec: the body of vhdl_arch::add_stmt is not in
the sources; at the value level it appends the concurrent statement (the
parent back-reference is handled in the identity-level model below). -/
def vhdl_arch.add_stmt (a : vhdl_arch) (s : vhdl_conc_stmt) : vhdl_arch :=
  ⟨a.name_, a.entity_, a.decls_, a.stmts_ ++ [s]⟩

/-- Modelled from the spec: the body of
vhdl_arch::have_declared_component is not in the sources; the spec says
it is true iff a component declaration with exactly that name was
previously appended. -/
def vhdl_arch.have_declared_component (a : vhdl_arch) (name : String) : Bool :=
  a.decls_.any fun d =>
    match d with
    | .var_decl _ _ => false
    | .component_decl n => n = name

/-- vhdl_entity: a name, exactly one owned architecture, a derived-from
label, and the ordered list of required package names (uses_). -/
structure vhdl_entity where
  name_ : String
  arch_ : vhdl_arch
  derived_from_ : String
  uses_ : List String
deriving DecidableEq

/-- Modelled from the spec: the vhdl_entity constructor body is not in
the sources; it stores name, derived-from label and the architecture,
with no required packages yet. -/
def vhdl_entity.mk_new (name derived_from : String) (arch : vhdl_arch) : vhdl_entity :=
  ⟨name, arch, derived_from, []⟩

/-- get_name, inline in the header. -/
def vhdl_entity.get_name (e : vhdl_entity) : String :=
  e.name_

/-- get_arch, inline in the header. -/
def vhdl_entity.get_arch (e : vhdl_entity) : vhdl_arch :=
  e.arch_

/-- Modelled from the spec: the body of vhdl_entity::requires_package is
not in the sources; the spec says it appends the package name to an
ordered collection without deduplication. -/
def vhdl_entity.requires_package (e : vhdl_entity) (s : String) : vhdl_entity :=
  ⟨e.name_, e.arch_, e.derived_from_, e.uses_ ++ [s]⟩

/-- Modelled from the spec: the body of
vhdl_component_decl::component_decl_for is not in the sources; the spec
says the produced component declaration's name equals the entity's
name. -/
def vhdl_component_decl.component_decl_for (ent : vhdl_entity) : vhdl_decl :=
  vhdl_decl.component_decl ent.name_

/-!
Emission of the completed tree.  Every emit method in the header is
declared const: emission reads the tree and writes only to the sink.  To
make that non-mutation claim provable rather than definitional, each
run below returns the node it traversed rebuilt from its parts together
with the produced text, and we later prove the rebuilt node equals the
original.
-/

/-- Modelled from the spec: emission of a run of declarations, one per
line, returning the traversed declarations and the text. -/
def run_decls : List vhdl_decl → Nat → List vhdl_decl × List Char
| [], _ => ([], [])
| d :: ds, l =>
    let r := run_decls ds l
    (d :: r.1, d.emit l ++ r.2)

/-- Modelled from the spec: emission of a run of sequential statements,
in append order, returning the traversed statements and the text. -/
def run_seq_stmts : List vhdl_seq_stmt → Nat → List vhdl_seq_stmt × List Char
| [], _ => ([], [])
| s :: ss, l =>
    let r := run_seq_stmts ss l
    (s :: r.1, s.emit l ++ r.2)

/-- Modelled from the spec: the body of vhdl_process::emit is not in the
sources; the spec says a process renders header, declarations one level
deeper, begin, its sequential statements one level deeper in append
order, then an end marker. -/
def vhdl_process.emitRun (p : vhdl_process) (l : Nat) : vhdl_process × List Char :=
  let rd := run_decls p.decls_ (l + 1)
  let rs := run_seq_stmts p.stmts_ (l + 1)
  (⟨rs.1, rd.1, p.name_⟩,
   indent l ++ p.name_.data ++ (": process\n").data ++ rd.2 ++
   indent l ++ ("begin\n").data ++ rs.2 ++
   indent l ++ ("end process;\n").data)

/-- Modelled from the spec: the bodies of vhdl_comp_inst::emit and
vhdl_process::emit are not in the sources; an instantiation references
an instance name and a component name. -/
def vhdl_conc_stmt.emitRun : vhdl_conc_stmt → Nat → vhdl_conc_stmt × List Char
| .comp_inst i c, l =>
    (.comp_inst i c, indent l ++ i.data ++ (": ").data ++ c.data ++ (";\n").data)
| .process p, l =>
    let r := p.emitRun l
    (.process r.1, r.2)

/-- Modelled from the spec: emission of a run of concurrent statements,
in append order. -/
def run_conc_stmts : List vhdl_conc_stmt → Nat → List vhdl_conc_stmt × List Char
| [], _ => ([], [])
| s :: ss, l =>
    let r1 := s.emitRun l
    let r := run_conc_stmts ss l
    (r1.1 :: r.1, r1.2 ++ r.2)

/-- Modelled from the spec: the body of vhdl_arch::emit is not in the
sources; the spec says an architecture renders its declarations, a
begin marker, its concurrent statements in append order, and an end
marker, each nested level one step deeper. -/
def vhdl_arch.emitRun (a : vhdl_arch) (l : Nat) : vhdl_arch × List Char :=
  let rd := run_decls a.decls_ (l + 1)
  let rs := run_conc_stmts a.stmts_ (l + 1)
  (⟨a.name_, a.entity_, rd.1, rs.1⟩,
   indent l ++ ("architecture ").data ++ a.name_.data ++ (" of ").data ++
     a.entity_.data ++ (" is\n").data ++ rd.2 ++
   indent l ++ ("begin\n").data ++ rs.2 ++
   indent l ++ ("end architecture;\n").data)

/-- Modelled from the spec: one dependency clause for one required
package name. -/
def use_clause (u : String) (l : Nat) : List Char :=
  indent l ++ ("use ").data ++ u.data ++ (";\n").data

/-- Modelled from the spec: the dependency clauses render one per
required package name in insertion order. -/
def emit_uses : List String → Nat → List Char
| [], _ => []
| u :: us, l => use_clause u l ++ emit_uses us l

/-- Modelled from the spec: the entity's own declaration stub, with the
port list elided. -/
def entity_stub (e : vhdl_entity) (l : Nat) : List Char :=
  indent l ++ ("entity ").data ++ e.name_.data ++ (" is\n").data ++
  indent l ++ ("end entity;\n").data

/-- Modelled from the spec: the body of vhdl_entity::emit is not in the
sources; the spec says an entity renders one dependency clause per
required package in insertion order, then the entity's own declaration
stub, then delegates to the owned architecture's rendering. -/
def vhdl_entity.emitRun (e : vhdl_entity) (l : Nat) : vhdl_entity × List Char :=
  let ra := e.arch_.emitRun l
  (⟨e.name_, ra.1, e.derived_from_, e.uses_⟩,
   emit_uses e.uses_ l ++ entity_stub e l ++ ra.2)

/-- The text produced by one emission of an entity tree. -/
def vhdl_entity.emit (e : vhdl_entity) (l : Nat) : List Char :=
  (e.emitRun l).2

/-- Emission writes to a sink (the output stream), appending its text. -/
def vhdl_entity.emit_to (e : vhdl_entity) (l : Nat) (sink : List Char) :
    vhdl_entity × List Char :=
  let r := e.emitRun l
  (r.1, sink ++ r.2)

/-!
Identity-level model.  The parent back-references of the header
(vhdl_conc_stmt::parent_, set only by its friend vhdl_arch, and
vhdl_arch::parent_, set only by its friend vhdl_entity) are pointers to
objects, so object identity matters.  We model a heap of objects
addressed by allocation index and the construction/insertion operations
as steps on that heap.
-/

/-- Update the element at an index, leaving the list unchanged when the
index is out of range. -/
def updateAt {α : Type} : List α → Nat → (α → α) → List α
| [], _, _ => []
| x :: xs, 0, f => f x :: xs
| x :: xs, n + 1, f => x :: updateAt xs n f

/-- A concurrent statement object: the header's inline constructor
vhdl_conc_stmt() : parent_(NULL) gives it a null parent. -/
structure conc_stmt_obj where
  parent_ : Option Nat
deriving DecidableEq

/-- An architecture object: parent entity back-reference, the ids of its
concurrent statements, its declarations, and its two names. -/
structure arch_obj where
  parent_ : Option Nat
  stmts_ : List Nat
  decls_ : List vhdl_decl
  name_ : String
  entity_ : String
deriving DecidableEq

/-- An entity object: name, derived-from label, the id of its single
architecture, and its required package names. -/
structure entity_obj where
  name_ : String
  derived_from_ : String
  arch_ : Nat
  uses_ : List String
deriving DecidableEq

/-- The heap: all allocated statements, architectures and entities,
addressed by allocation index. -/
structure World where
  stmts : List conc_stmt_obj
  archs : List arch_obj
  ents : List entity_obj
deriving DecidableEq

def World.empty : World := ⟨[], [], []⟩

/-- The operations of the construction API that touch the heap. -/
inductive Op where
| new_conc_stmt
| new_arch (entity name : String)
| arch_add_stmt (a s : Nat)
| arch_add_decl (a : Nat) (d : vhdl_decl)
| new_entity (name derived : String) (a : Nat)
| requires_package (e : Nat) (p : String)
deriving DecidableEq

/-- One construction step.

new_conc_stmt: the inline header constructor, parent_(NULL).
new_arch: modelled from the spec, a fresh architecture with a null
parent and empty lists.
arch_add_stmt: modelled from the spec, the body of vhdl_arch::add_stmt
is not in the sources; it appends the statement id to the architecture's
list and sets the statement's parent back-reference to the architecture.
arch_add_decl: modelled from the spec, appends the declaration.
new_entity: modelled from the spec, the vhdl_entity constructor body is
not in the sources; it takes ownership of the architecture and sets the
architecture's parent back-reference to the new entity.
requires_package: modelled from the spec, appends the package name. -/
def step (w : World) : Op → World
| .new_conc_stmt =>
    ⟨w.stmts ++ [⟨none⟩], w.archs, w.ents⟩
| .new_arch entity name =>
    ⟨w.stmts, w.archs ++ [⟨none, [], [], name, entity⟩], w.ents⟩
| .arch_add_stmt a s =>
    ⟨updateAt w.stmts s (fun _ => ⟨some a⟩),
     updateAt w.archs a (fun o => ⟨o.parent_, o.stmts_ ++ [s], o.decls_, o.name_, o.entity_⟩),
     w.ents⟩
| .arch_add_decl a d =>
    ⟨w.stmts,
     updateAt w.archs a (fun o => ⟨o.parent_, o.stmts_, o.decls_ ++ [d], o.name_, o.entity_⟩),
     w.ents⟩
| .new_entity name derived a =>
    ⟨w.stmts,
     updateAt w.archs a (fun o => ⟨some w.ents.length, o.stmts_, o.decls_, o.name_, o.entity_⟩),
     w.ents ++ [⟨name, derived, a, []⟩]⟩
| .requires_package e p =>
    ⟨w.stmts, w.archs,
     updateAt w.ents e (fun o => ⟨o.name_, o.derived_from_, o.arch_, o.uses_ ++ [p]⟩)⟩

/-- Run a list of construction operations. -/
def exec (w : World) (ops : List Op) : World :=
  ops.foldl step w

/-- vhdl_conc_stmt::get_parent on statement id s: none when s is not
allocated, otherwise its parent field. -/
def stmt_parent (w : World) (s : Nat) : Option (Option Nat) :=
  (w.stmts[s]?).map (fun o => o.parent_)

/-- vhdl_arch::get_parent on architecture id a. -/
def arch_parent (w : World) (a : Nat) : Option (Option Nat) :=
  (w.archs[a]?).map (fun o => o.parent_)

/-- The statement list of architecture id a. -/
def arch_stmts (w : World) (a : Nat) : Option (List Nat) :=
  (w.archs[a]?).map (fun o => o.stmts_)

/-- vhdl_entity::get_arch on entity id e. -/
def ent_arch (w : World) (e : Nat) : Option Nat :=
  (w.ents[e]?).map (fun o => o.arch_)

/-- Does this operation set the parent of statement id s, i.e. is it an
arch_add_stmt inserting s? -/
def sets_stmt_parent (s : Nat) : Op → Bool
| .arch_add_stmt _ s1 => s1 == s
| _ => false

/-- True when this operation, if it inserts statement id s at all,
inserts it into architecture a (ownership transfer: a statement is only
ever handed to one architecture). -/
def only_into (s a : Nat) : Op → Bool
| .arch_add_stmt a1 s1 => s1 != s || a1 == a
| _ => true

/-- True when this operation does not insert statement id s anywhere. -/
def no_insert_of (s : Nat) : Op → Bool
| .arch_add_stmt _ s1 => s1 != s
| _ => true

/-- Does this operation set the parent of architecture id a, i.e. is it
an entity construction taking ownership of a? -/
def sets_arch_parent (a : Nat) : Op → Bool
| .new_entity _ _ a1 => a1 == a
| _ => false

/-! Basic lemmas about the heap operations. -/

theorem length_updateAt {α : Type} (l : List α) (n : Nat) (f : α → α) :
    (updateAt l n f).length = l.length := by
  induction l generalizing n with
  | nil => rfl
  | cons x xs ih =>
      cases n with
      | zero => rfl
      | succ m => simpa [updateAt] using ih m

theorem getElem?_updateAt_ne {α : Type} (l : List α) (n m : Nat) (f : α → α)
    (h : m ≠ n) : (updateAt l n f)[m]? = l[m]? := by
  induction l generalizing n m with
  | nil => rfl
  | cons x xs ih =>
      cases n with
      | zero =>
          cases m with
          | zero => exact absurd rfl h
          | succ k => simp [updateAt]
      | succ n1 =>
          cases m with
          | zero => simp [updateAt]
          | succ k =>
              simpa [updateAt] using ih n1 k (fun hh => h (by simp [hh]))

theorem getElem?_updateAt_self {α : Type} (l : List α) (n : Nat) (f : α → α) :
    (updateAt l n f)[n]? = (l[n]?).map f := by
  induction l generalizing n with
  | nil => rfl
  | cons x xs ih =>
      cases n with
      | zero => simp [updateAt]
      | succ m => simpa [updateAt] using ih m

theorem exec_cons (w : World) (op : Op) (ops : List Op) :
    exec w (op :: ops) = exec (step w op) ops := rfl

theorem exec_inv (ops : List Op) (P : World → Prop)
    (h : ∀ w op, op ∈ ops → P w → P (step w op)) (w : World) (hw : P w) :
    P (exec w ops) := by
  induction ops generalizing w with
  | nil => exact hw
  | cons op rest ih =>
      rw [exec_cons]
      exact ih (fun w2 o ho => h w2 o (List.mem_cons_of_mem _ ho)) (step w op)
        (h w op (List.mem_cons_self _ _) hw)

/-- A freshly constructed concurrent statement has a null parent (the
inline header constructor parent_(NULL)). -/
theorem stmt_parent_new_conc (w : World) :
    stmt_parent (step w Op.new_conc_stmt) w.stmts.length = some none := by
  simp [step, stmt_parent]

/-- Inserting a statement into an architecture sets its parent. -/
theorem stmt_parent_add (w : World) (a s : Nat) (hs : s < w.stmts.length) :
    stmt_parent (step w (Op.arch_add_stmt a s)) s = some (some a) := by
  simp [step, stmt_parent, getElem?_updateAt_self]
  rw [List.getElem?_eq_getElem hs]
  simp

/-- Inserting a statement appends its id to the architecture's list. -/
theorem arch_stmts_add (w : World) (a s : Nat) (ha : a < w.archs.length) :
    arch_stmts (step w (Op.arch_add_stmt a s)) a =
      (arch_stmts w a).map (fun l => l ++ [s]) := by
  simp [step, arch_stmts, getElem?_updateAt_self]
  rw [List.getElem?_eq_getElem ha]
  simp

/-- No operation other than an insertion of s changes the parent of an
allocated statement s. -/
theorem stmt_parent_preserved (w : World) (op : Op) (s : Nat)
    (hs : s < w.stmts.length) (h : sets_stmt_parent s op = false) :
    stmt_parent (step w op) s = stmt_parent w s := by
  cases op with
  | new_conc_stmt => simp [step, stmt_parent, List.getElem?_append, hs]
  | new_arch e n => rfl
  | arch_add_stmt a s1 =>
      have hne : s ≠ s1 := by
        intro hh
        simp [sets_stmt_parent, hh] at h
      simp [step, stmt_parent, getElem?_updateAt_ne _ _ _ _ hne]
  | arch_add_decl a d => rfl
  | new_entity nm dv a => rfl
  | requires_package e p => rfl

/-- After any single step, the parent of statement id s is unchanged,
or null (a fresh allocation), or the operation was exactly an insertion
of s into some architecture a and the parent is now a. -/
theorem stmt_parent_cases (w : World) (op : Op) (s : Nat) :
    stmt_parent (step w op) s = stmt_parent w s ∨
    stmt_parent (step w op) s = some none ∨
    ∃ a, op = Op.arch_add_stmt a s ∧
      stmt_parent (step w op) s = some (some a) := by
  cases op with
  | new_conc_stmt =>
      rcases Nat.lt_trichotomy s w.stmts.length with hlt | heq | hgt
      · left
        simp [step, stmt_parent, List.getElem?_append, hlt]
      · right; left
        rw [heq]
        exact stmt_parent_new_conc w
      · left
        have h1 : w.stmts.length ≤ s := Nat.le_of_lt hgt
        have h2 : (w.stmts ++ [(⟨none⟩ : conc_stmt_obj)]).length ≤ s := by
          simpa using hgt
        simp [step, stmt_parent, List.getElem?_eq_none h1, List.getElem?_eq_none h2]
  | new_arch e n => left; rfl
  | arch_add_stmt a s1 =>
      by_cases hs : s1 = s
      · subst hs
        rcases Nat.lt_or_ge s1 w.stmts.length with hlt | hge
        · right; right
          exact ⟨a, rfl, stmt_parent_add w a s1 hlt⟩
        · left
          simp [step, stmt_parent, getElem?_updateAt_self, List.getElem?_eq_none hge]
      · left
        simp [step, stmt_parent, getElem?_updateAt_ne _ _ _ _ (Ne.symm hs)]
  | arch_add_decl a d => left; rfl
  | new_entity nm dv a => left; rfl
  | requires_package e p => left; rfl

/-- Constructing an entity with architecture a records a as the new
entity's architecture. -/
theorem ent_arch_new_entity (w : World) (nm dv : String) (a : Nat) :
    ent_arch (step w (Op.new_entity nm dv a)) w.ents.length = some a := by
  simp [step, ent_arch]

/-- Constructing an entity with architecture a sets a's parent to the
new entity. -/
theorem arch_parent_new_entity (w : World) (nm dv : String) (a : Nat)
    (ha : a < w.archs.length) :
    arch_parent (step w (Op.new_entity nm dv a)) a =
      some (some w.ents.length) := by
  simp [step, arch_parent, getElem?_updateAt_self]
  rw [List.getElem?_eq_getElem ha]
  simp

/-- No operation other than an entity construction over a changes the
parent of an allocated architecture a. -/
theorem arch_parent_preserved (w : World) (op : Op) (a : Nat)
    (ha : a < w.archs.length) (h : sets_arch_parent a op = false) :
    arch_parent (step w op) a = arch_parent w a := by
  cases op with
  | new_conc_stmt => rfl
  | new_arch e n => simp [step, arch_parent, List.getElem?_append, ha]
  | arch_add_stmt a1 s =>
      by_cases hh : a = a1
      · subst hh
        simp [step, arch_parent, getElem?_updateAt_self]
        rw [List.getElem?_eq_getElem ha]
        simp
      · simp [step, arch_parent, getElem?_updateAt_ne _ _ _ _ hh]
  | arch_add_decl a1 d =>
      by_cases hh : a = a1
      · subst hh
        simp [step, arch_parent, getElem?_updateAt_self]
        rw [List.getElem?_eq_getElem ha]
        simp
      · simp [step, arch_parent, getElem?_updateAt_ne _ _ _ _ hh]
  | new_entity nm dv a1 =>
      have hne : a ≠ a1 := by
        intro hh
        simp [sets_arch_parent, hh] at h
      simp [step, arch_parent, getElem?_updateAt_ne _ _ _ _ hne]
  | requires_package e p => rfl

/-!
Claim theorems.
-/

/-- Claim C1: constructing an Entity with an Architecture a makes the
new entity's get_arch return a and a's get_parent return the new
entity; and entity construction over a is the only operation that
changes an allocated architecture's parent back-reference. -/
theorem entity_arch_mutual_links :
    (∀ (w : World) (nm dv : String) (a : Nat), a < w.archs.length →
       ent_arch (step w (Op.new_entity nm dv a)) w.ents.length = some a ∧
       arch_parent (step w (Op.new_entity nm dv a)) a =
         some (some w.ents.length)) ∧
    (∀ (w : World) (op : Op) (a : Nat), a < w.archs.length →
       sets_arch_parent a op = false →
       arch_parent (step w op) a = arch_parent w a) :=
  ⟨fun w nm dv a ha =>
     ⟨ent_arch_new_entity w nm dv a, arch_parent_new_entity w nm dv a ha⟩,
   fun w op a ha h => arch_parent_preserved w op a ha h⟩

theorem entity_arch_mutual_links_witness :
    (0 < (step World.empty (Op.new_arch "counter" "Behavioural")).archs.length ∧
     ent_arch (step (step World.empty (Op.new_arch "counter" "Behavioural"))
         (Op.new_entity "counter" "counter_mod" 0)) 0 = some 0 ∧
     arch_parent (step (step World.empty (Op.new_arch "counter" "Behavioural"))
         (Op.new_entity "counter" "counter_mod" 0)) 0 = some (some 0)) ∧
    (sets_arch_parent 0 Op.new_conc_stmt = false ∧
     arch_parent (step (step World.empty (Op.new_arch "counter" "Behavioural"))
         Op.new_conc_stmt) 0 =
       arch_parent (step World.empty (Op.new_arch "counter" "Behavioural")) 0) := by
  constructor
  · refine ⟨by decide, ?_, ?_⟩
    · exact (entity_arch_mutual_links.1
        (step World.empty (Op.new_arch "counter" "Behavioural"))
        "counter" "counter_mod" 0 (by decide)).1
    · exact (entity_arch_mutual_links.1
        (step World.empty (Op.new_arch "counter" "Behavioural"))
        "counter" "counter_mod" 0 (by decide)).2
  · exact ⟨rfl, entity_arch_mutual_links.2
      (step World.empty (Op.new_arch "counter" "Behavioural"))
      Op.new_conc_stmt 0 (by decide) rfl⟩

/-- Claim C2: add_stmt appends the statement to the architecture and
sets the statement's parent back-reference to that architecture; no
other operation changes an allocated statement's parent; and along any
construction trace in which the statement is only ever inserted into
architecture a (ownership transfer), its parent is always unallocated,
null, or a — at most one architecture over its lifetime. -/
theorem add_stmt_parent_once :
    (∀ (w : World) (a s : Nat), s < w.stmts.length → a < w.archs.length →
       stmt_parent (step w (Op.arch_add_stmt a s)) s = some (some a) ∧
       arch_stmts (step w (Op.arch_add_stmt a s)) a =
         (arch_stmts w a).map (fun l => l ++ [s])) ∧
    (∀ (w : World) (op : Op) (s : Nat), s < w.stmts.length →
       sets_stmt_parent s op = false →
       stmt_parent (step w op) s = stmt_parent w s) ∧
    (∀ (ops : List Op) (a s : Nat),
       ops.all (only_into s a) = true →
       stmt_parent (exec World.empty ops) s = none ∨
       stmt_parent (exec World.empty ops) s = some none ∨
       stmt_parent (exec World.empty ops) s = some (some a)) := by
  refine ⟨fun w a s hs ha => ⟨stmt_parent_add w a s hs, arch_stmts_add w a s ha⟩,
    fun w op s hs h => stmt_parent_preserved w op s hs h,
    fun ops a s hall => ?_⟩
  refine exec_inv ops
    (fun w => stmt_parent w s = none ∨ stmt_parent w s = some none ∨
      stmt_parent w s = some (some a)) ?_ World.empty ?_
  · intro w op hop hP
    rcases stmt_parent_cases w op s with hc | hc | ⟨a1, rfl, hc⟩
    · rw [hc]; exact hP
    · exact Or.inr (Or.inl hc)
    · have h1 : only_into s a (Op.arch_add_stmt a1 s) = true :=
        List.all_eq_true.mp hall _ hop
      have h2 : a1 = a := by
        simpa [only_into] using h1
      subst h2
      exact Or.inr (Or.inr hc)
  · left
    simp [stmt_parent, World.empty]

theorem add_stmt_parent_once_witness :
    (0 < (step (step World.empty Op.new_conc_stmt)
        (Op.new_arch "counter" "Behavioural")).stmts.length ∧
     0 < (step (step World.empty Op.new_conc_stmt)
        (Op.new_arch "counter" "Behavioural")).archs.length ∧
     stmt_parent (step (step (step World.empty Op.new_conc_stmt)
        (Op.new_arch "counter" "Behavioural")) (Op.arch_add_stmt 0 0)) 0 =
       some (some 0) ∧
     arch_stmts (step (step (step World.empty Op.new_conc_stmt)
        (Op.new_arch "counter" "Behavioural")) (Op.arch_add_stmt 0 0)) 0 =
       some [0]) ∧
    (sets_stmt_parent 0 (Op.arch_add_decl 0 (vhdl_decl.component_decl "c")) = false ∧
     stmt_parent (step (step (step World.empty Op.new_conc_stmt)
        (Op.new_arch "counter" "Behavioural"))
        (Op.arch_add_decl 0 (vhdl_decl.component_decl "c"))) 0 =
       stmt_parent (step (step World.empty Op.new_conc_stmt)
        (Op.new_arch "counter" "Behavioural")) 0) ∧
    ([Op.new_conc_stmt, Op.new_arch "counter" "Behavioural",
        Op.arch_add_stmt 0 0].all (only_into 0 0) = true ∧
     (stmt_parent (exec World.empty [Op.new_conc_stmt,
        Op.new_arch "counter" "Behavioural", Op.arch_add_stmt 0 0]) 0 = none ∨
      stmt_parent (exec World.empty [Op.new_conc_stmt,
        Op.new_arch "counter" "Behavioural", Op.arch_add_stmt 0 0]) 0 = some none ∨
      stmt_parent (exec World.empty [Op.new_conc_stmt,
        Op.new_arch "counter" "Behavioural", Op.arch_add_stmt 0 0]) 0 =
        some (some 0))) := by
  refine ⟨⟨by decide, by decide, ?_, ?_⟩, ⟨rfl, ?_⟩, by decide, ?_⟩
  · exact (add_stmt_parent_once.1 (step (step World.empty Op.new_conc_stmt)
      (Op.new_arch "counter" "Behavioural")) 0 0 (by decide) (by decide)).1
  · have h := (add_stmt_parent_once.1 (step (step World.empty Op.new_conc_stmt)
      (Op.new_arch "counter" "Behavioural")) 0 0 (by decide) (by decide)).2
    rw [h]
    decide
  · exact add_stmt_parent_once.2.1 (step (step World.empty Op.new_conc_stmt)
      (Op.new_arch "counter" "Behavioural"))
      (Op.arch_add_decl 0 (vhdl_decl.component_decl "c")) 0 (by decide) rfl
  · exact add_stmt_parent_once.2.2 [Op.new_conc_stmt,
      Op.new_arch "counter" "Behavioural", Op.arch_add_stmt 0 0] 0 0 (by decide)

/-- Claim C9: a freshly constructed concurrent statement has a null
parent (parent_(NULL) in the inline header constructor), and along any
construction trace in which the statement is never inserted into an
architecture, its parent query always yields null (or the statement is
not yet allocated). -/
theorem never_inserted_parent_null :
    (∀ (w : World), stmt_parent (step w Op.new_conc_stmt) w.stmts.length =
       some none) ∧
    (∀ (ops : List Op) (s : Nat),
       ops.all (no_insert_of s) = true →
       stmt_parent (exec World.empty ops) s = none ∨
       stmt_parent (exec World.empty ops) s = some none) := by
  refine ⟨stmt_parent_new_conc, fun ops s hall => ?_⟩
  refine exec_inv ops
    (fun w => stmt_parent w s = none ∨ stmt_parent w s = some none)
    ?_ World.empty ?_
  · intro w op hop hP
    rcases stmt_parent_cases w op s with hc | hc | ⟨a1, rfl, hc⟩
    · rw [hc]; exact hP
    · exact Or.inr hc
    · have h1 : no_insert_of s (Op.arch_add_stmt a1 s) = true :=
        List.all_eq_true.mp hall _ hop
      simp [no_insert_of] at h1
  · left
    simp [stmt_parent, World.empty]

theorem never_inserted_parent_null_witness :
    (stmt_parent (step World.empty Op.new_conc_stmt) 0 = some none) ∧
    ([Op.new_conc_stmt, Op.new_arch "e" "Behavioural", Op.new_conc_stmt,
        Op.arch_add_stmt 0 1].all (no_insert_of 0) = true ∧
     (stmt_parent (exec World.empty [Op.new_conc_stmt,
        Op.new_arch "e" "Behavioural", Op.new_conc_stmt,
        Op.arch_add_stmt 0 1]) 0 = none ∨
      stmt_parent (exec World.empty [Op.new_conc_stmt,
        Op.new_arch "e" "Behavioural", Op.new_conc_stmt,
        Op.arch_add_stmt 0 1]) 0 = some none)) := by
  refine ⟨never_inserted_parent_null.1 World.empty, by decide, ?_⟩
  exact never_inserted_parent_null.2 [Op.new_conc_stmt,
    Op.new_arch "e" "Behavioural", Op.new_conc_stmt,
    Op.arch_add_stmt 0 1] 0 (by decide)

/-! Accumulation of appended declarations. -/

theorem process_foldl_decls (p : vhdl_process) (ds : List vhdl_decl) :
    (ds.foldl vhdl_process.add_decl p).decls_ = p.decls_ ++ ds := by
  induction ds generalizing p with
  | nil => simp
  | cons d rest ih =>
      simp [List.foldl, vhdl_process.add_decl, ih]

theorem arch_foldl_decls (a : vhdl_arch) (ds : List vhdl_decl) :
    (ds.foldl vhdl_arch.add_decl a).decls_ = a.decls_ ++ ds := by
  induction ds generalizing a with
  | nil => simp
  | cons d rest ih =>
      simp [List.foldl, vhdl_arch.add_decl, ih]

/-- Claim C3: have_declared_var on a Process is true iff a variable
declaration with exactly that name was appended via add_decl, and it is
false on a freshly constructed Process; have_declared_component on an
Architecture obeys the same law for component declarations. -/
theorem have_declared_iff :
    (∀ (nm n : String),
       vhdl_process.have_declared_var (vhdl_process.mk_new nm) n = false) ∧
    (∀ (nm n : String) (ds : List vhdl_decl),
       vhdl_process.have_declared_var
           (ds.foldl vhdl_process.add_decl (vhdl_process.mk_new nm)) n = true ↔
         ∃ t, vhdl_decl.var_decl n t ∈ ds) ∧
    (∀ (en nm n : String) (ds : List vhdl_decl),
       vhdl_arch.have_declared_component
           (ds.foldl vhdl_arch.add_decl (vhdl_arch.mk_named en nm)) n = true ↔
         vhdl_decl.component_decl n ∈ ds) := by
  refine ⟨fun nm n => rfl, fun nm n ds => ?_, fun en nm n ds => ?_⟩
  · rw [vhdl_process.have_declared_var, List.any_eq_true]
    rw [process_foldl_decls]
    constructor
    · rintro ⟨d, hd, hm⟩
      cases d with
      | var_decl n0 t =>
          simp at hm
          subst hm
          exact ⟨t, by simpa [vhdl_process.mk_new] using hd⟩
      | component_decl n0 => simp at hm
    · rintro ⟨t, ht⟩
      exact ⟨vhdl_decl.var_decl n t,
        by simpa [vhdl_process.mk_new] using ht, by simp⟩
  · rw [vhdl_arch.have_declared_component, List.any_eq_true]
    rw [arch_foldl_decls]
    constructor
    · rintro ⟨d, hd, hm⟩
      cases d with
      | var_decl n0 t => simp at hm
      | component_decl n0 =>
          simp at hm
          subst hm
          simpa [vhdl_arch.mk_named] using hd
    · intro ht
      exact ⟨vhdl_decl.component_decl n,
        by simpa [vhdl_arch.mk_named] using ht, by simp⟩

theorem have_declared_iff_witness :
    (vhdl_process.have_declared_var (vhdl_process.mk_new "proc0") "x" = false) ∧
    (vhdl_process.have_declared_var
        ([vhdl_decl.var_decl "x" (vhdl_type.scalar_type "integer")].foldl
          vhdl_process.add_decl (vhdl_process.mk_new "proc0")) "x" = true) ∧
    (vhdl_arch.have_declared_component
        ([vhdl_decl.component_decl "c"].foldl vhdl_arch.add_decl
          (vhdl_arch.mk_named "counter" "Behavioural")) "c" = true) := by
  refine ⟨have_declared_iff.1 "proc0" "x", ?_, ?_⟩
  · exact (have_declared_iff.2.1 "proc0" "x"
      [vhdl_decl.var_decl "x" (vhdl_type.scalar_type "integer")]).mpr
      ⟨vhdl_type.scalar_type "integer", by simp⟩
  · exact (have_declared_iff.2.2 "counter" "Behavioural" "c"
      [vhdl_decl.component_decl "c"]).mpr (by simp)

/-- Claim C4: the component declaration produced by component_decl_for
has a name equal to the entity's name (construction is otherwise
private to this factory in the header). -/
theorem component_decl_for_name (ent : vhdl_entity) :
    (vhdl_component_decl.component_decl_for ent).get_name = ent.get_name := rfl

/-- Claim C7: a duplicate declaration is never rejected — add_decl
still appends it to a Process or an Architecture whose declarations
already contain that name, with no error channel. -/
theorem duplicate_insert_not_rejected :
    (∀ (p : vhdl_process) (d : vhdl_decl),
       vhdl_process.have_declared_var p d.get_name = true →
       (p.add_decl d).decls_ = p.decls_ ++ [d] ∧
       (p.add_decl d).decls_.length = p.decls_.length + 1) ∧
    (∀ (a : vhdl_arch) (d : vhdl_decl),
       vhdl_arch.have_declared_component a d.get_name = true →
       (a.add_decl d).decls_ = a.decls_ ++ [d] ∧
       (a.add_decl d).decls_.length = a.decls_.length + 1) := by
  refine ⟨fun p d _ => ⟨rfl, ?_⟩, fun a d _ => ⟨rfl, ?_⟩⟩
  · simp [vhdl_process.add_decl]
  · simp [vhdl_arch.add_decl]

theorem duplicate_insert_not_rejected_witness :
    (vhdl_process.have_declared_var
        ((vhdl_process.mk_new "p").add_decl
          (vhdl_decl.var_decl "x" (vhdl_type.scalar_type "integer")))
        (vhdl_decl.var_decl "x" (vhdl_type.scalar_type "integer")).get_name = true ∧
     (((vhdl_process.mk_new "p").add_decl
          (vhdl_decl.var_decl "x" (vhdl_type.scalar_type "integer"))).add_decl
        (vhdl_decl.var_decl "x" (vhdl_type.scalar_type "integer"))).decls_ =
       ((vhdl_process.mk_new "p").add_decl
          (vhdl_decl.var_decl "x" (vhdl_type.scalar_type "integer"))).decls_ ++
         [vhdl_decl.var_decl "x" (vhdl_type.scalar_type "integer")]) ∧
    (vhdl_arch.have_declared_component
        ((vhdl_arch.mk_named "e" "Behavioural").add_decl
          (vhdl_decl.component_decl "c"))
        (vhdl_decl.component_decl "c").get_name = true ∧
     (((vhdl_arch.mk_named "e" "Behavioural").add_decl
          (vhdl_decl.component_decl "c")).add_decl
        (vhdl_decl.component_decl "c")).decls_ =
       ((vhdl_arch.mk_named "e" "Behavioural").add_decl
          (vhdl_decl.component_decl "c")).decls_ ++
         [vhdl_decl.component_decl "c"]) := by
  refine ⟨⟨by decide, ?_⟩, by decide, ?_⟩
  · exact (duplicate_insert_not_rejected.1
      ((vhdl_process.mk_new "p").add_decl
        (vhdl_decl.var_decl "x" (vhdl_type.scalar_type "integer")))
      (vhdl_decl.var_decl "x" (vhdl_type.scalar_type "integer"))
      (by decide)).1
  · exact (duplicate_insert_not_rejected.2
      ((vhdl_arch.mk_named "e" "Behavioural").add_decl
        (vhdl_decl.component_decl "c"))
      (vhdl_decl.component_decl "c") (by decide)).1

/-- Claim C10: the header's default arguments give an Architecture
constructed without an explicit name the name "Behavioural", and a
Process constructed without a name the empty string. -/
theorem default_names :
    (∀ (entity : String), (vhdl_arch.mk_default entity).name_ = "Behavioural") ∧
    vhdl_process.mk_default.name_ = "" :=
  ⟨fun _ => rfl, rfl⟩

/-! Separator structure of expression-list emission. -/

theorem emit_exprs_append (es : List vhdl_expr) (e : vhdl_expr) (h : es ≠ []) :
    emit_exprs (es ++ [e]) = emit_exprs es ++ (", ").data ++ e.emit := by
  induction es with
  | nil => exact absurd rfl h
  | cons x xs ih =>
      cases xs with
      | nil => simp [emit_exprs]
      | cons y ys =>
          have h2 : (y :: ys) ≠ [] := by simp
          have := ih h2
          simp only [List.cons_append] at this ⊢
          simp only [emit_exprs, this]
          simp [List.append_assoc]

theorem count_emit_exprs (es : List vhdl_expr)
    (h : ∀ e ∈ es, ',' ∉ e.emit) :
    (emit_exprs es).count ',' = es.length - 1 := by
  induction es with
  | nil => simp [emit_exprs]
  | cons x xs ih =>
      cases xs with
      | nil =>
          have hx : ',' ∉ x.emit := h x (by simp)
          simp [emit_exprs, List.count_eq_zero.mpr hx]
      | cons y ys =>
          have hx : ',' ∉ x.emit := h x (by simp)
          have hrest : ∀ e ∈ (y :: ys), ',' ∉ e.emit :=
            fun e he => h e (List.mem_cons_of_mem _ he)
          have := ih hrest
          simp only [emit_exprs]
          rw [List.count_append, List.count_append, this,
            List.count_eq_zero.mpr hx]
          simp [String.data, Nat.add_comm]

/-- Claim C5: an ExpressionList with zero members emits as the empty
string; appending a member to a nonempty list puts one comma separator
before its rendering (append order); and for members whose renderings
contain no comma, the emission of N members contains exactly N - 1
commas. -/
theorem expr_list_emit_commas :
    (vhdl_expr_list.emit ⟨[]⟩ = []) ∧
    (∀ (l : vhdl_expr_list) (e : vhdl_expr), l.exprs_ ≠ [] →
       (l.add_expr e).emit = l.emit ++ (", ").data ++ e.emit) ∧
    (∀ (l : vhdl_expr_list), (∀ e ∈ l.exprs_, ',' ∉ e.emit) →
       (l.emit).count ',' = l.exprs_.length - 1) := by
  refine ⟨rfl, fun l e h => ?_, fun l h => ?_⟩
  · exact emit_exprs_append l.exprs_ e h
  · exact count_emit_exprs l.exprs_ h

theorem expr_list_emit_commas_witness :
    ((⟨[vhdl_expr.var_ref "a", vhdl_expr.var_ref "b"]⟩ :
        vhdl_expr_list).exprs_ ≠ [] ∧
     ((⟨[vhdl_expr.var_ref "a", vhdl_expr.var_ref "b"]⟩ :
        vhdl_expr_list).add_expr (vhdl_expr.var_ref "c")).emit =
       (⟨[vhdl_expr.var_ref "a", vhdl_expr.var_ref "b"]⟩ :
        vhdl_expr_list).emit ++ (", ").data ++ (vhdl_expr.var_ref "c").emit) ∧
    ((∀ e ∈ (⟨[vhdl_expr.var_ref "a", vhdl_expr.var_ref "b",
        vhdl_expr.var_ref "c"]⟩ : vhdl_expr_list).exprs_, ',' ∉ e.emit) ∧
     ((⟨[vhdl_expr.var_ref "a", vhdl_expr.var_ref "b",
        vhdl_expr.var_ref "c"]⟩ : vhdl_expr_list).emit).count ',' = 2) := by
  refine ⟨⟨by decide, ?_⟩, by decide, ?_⟩
  · exact expr_list_emit_commas.2.1
      ⟨[vhdl_expr.var_ref "a", vhdl_expr.var_ref "b"]⟩
      (vhdl_expr.var_ref "c") (by decide)
  · exact expr_list_emit_commas.2.2
      ⟨[vhdl_expr.var_ref "a", vhdl_expr.var_ref "b", vhdl_expr.var_ref "c"]⟩
      (by decide)

/-! Dependency clauses of entity emission. -/

theorem emit_uses_eq_join (us : List String) (l : Nat) :
    emit_uses us l = (us.map (fun u => use_clause u l)).flatten := by
  induction us with
  | nil => rfl
  | cons u rest ih => simp [emit_uses, ih]

/-- Claim C8: requires_package appends the package name to the ordered
collection without deduplication (a repeated name is stored again), and
entity emission renders one dependency clause per stored package name
in insertion order, before the entity's own declaration stub and the
architecture's rendering. -/
theorem requires_package_append_emit :
    (∀ (e : vhdl_entity) (n : String),
       (e.requires_package n).uses_ = e.uses_ ++ [n] ∧
       ((e.requires_package n).requires_package n).uses_.count n =
         e.uses_.count n + 2) ∧
    (∀ (us : List String) (l : Nat),
       emit_uses us l = (us.map (fun u => use_clause u l)).flatten) ∧
    (∀ (e : vhdl_entity) (l : Nat),
       e.emit l = emit_uses e.uses_ l ++ entity_stub e l ++
         (e.arch_.emitRun l).2) := by
  refine ⟨fun e n => ⟨rfl, ?_⟩, emit_uses_eq_join, fun e l => rfl⟩
  simp [vhdl_entity.requires_package, List.count_append]

/-! Emission traverses the tree without changing any node. -/

theorem run_decls_fst (ds : List vhdl_decl) (l : Nat) :
    (run_decls ds l).1 = ds := by
  induction ds with
  | nil => rfl
  | cons d rest ih => simp [run_decls, ih]

theorem run_seq_stmts_fst (ss : List vhdl_seq_stmt) (l : Nat) :
    (run_seq_stmts ss l).1 = ss := by
  induction ss with
  | nil => rfl
  | cons s rest ih => simp [run_seq_stmts, ih]

theorem process_emitRun_fst (p : vhdl_process) (l : Nat) :
    (p.emitRun l).1 = p := by
  cases p
  simp [vhdl_process.emitRun, run_decls_fst, run_seq_stmts_fst]

theorem conc_stmt_emitRun_fst (s : vhdl_conc_stmt) (l : Nat) :
    (s.emitRun l).1 = s := by
  cases s with
  | comp_inst i c => rfl
  | process p => simp [vhdl_conc_stmt.emitRun, process_emitRun_fst]

theorem run_conc_stmts_fst (ss : List vhdl_conc_stmt) (l : Nat) :
    (run_conc_stmts ss l).1 = ss := by
  induction ss with
  | nil => rfl
  | cons s rest ih => simp [run_conc_stmts, ih, conc_stmt_emitRun_fst]

theorem arch_emitRun_fst (a : vhdl_arch) (l : Nat) :
    (a.emitRun l).1 = a := by
  cases a
  simp [vhdl_arch.emitRun, run_decls_fst, run_conc_stmts_fst]

theorem entity_emitRun_fst (e : vhdl_entity) (l : Nat) :
    (e.emitRun l).1 = e := by
  cases e
  simp [vhdl_entity.emitRun, arch_emitRun_fst]

/-- Claim C6: emission leaves every node of the tree unchanged (the
tree returned by a full emission run equals the input tree), so
emitting the same tree twice into a sink appends the identical text
both times. -/
theorem emit_no_mutation :
    (∀ (e : vhdl_entity) (l : Nat), (e.emitRun l).1 = e) ∧
    (∀ (e : vhdl_entity) (l : Nat) (sink : List Char),
       ((e.emit_to l sink).1.emit_to l (e.emit_to l sink).2).2 =
         sink ++ e.emit l ++ e.emit l) := by
  refine ⟨entity_emitRun_fst, fun e l sink => ?_⟩
  simp [vhdl_entity.emit_to, vhdl_entity.emit, entity_emitRun_fst,
    List.append_assoc]

end VhdlElement
